import Mathlib

/-!
Verification development for the Bespoke-Tailor backend: the MCP session
pool (`MCPConnectionPool` in `src/mcp_client/client.py`), the tool-use
orchestration loop (`MCPClient.process_query`), the sliding-window rate
limiter (`check_rate_limit` in `src/app.py`) and the request endpoints
(`tailor_resume`, `force_reconnect`).

Modelling choices, stated once:
* Worker sessions (`MCPClient` objects) are identified by natural numbers;
  object identity in Python becomes `Nat` equality here.
* `self.in_use` is a Python `set`, modelled as `Finset Nat`; `self.available`
  is a Python list (used as a LIFO stack: `pop()` from the end, `append` at
  the end), modelled as `List Nat`.
* The per-session boolean `client.connected` and the outcome of a reconnect
  attempt (`connect_to_server`, which performs external I/O) are supplied as
  explicit boolean inputs to the operations that read them.
* Exceptions become `Except`; Python code that catches all exceptions
  becomes a total Lean function.
-/

/-- State of `MCPConnectionPool` (`src/mcp_client/client.py:133-142`).
`lock` and `_event_loop` (pure concurrency plumbing) are not part of the
functional state; `nextId` is a freshness counter standing for Python's
allocation of new `MCPClient` objects in `initialize_pool`. -/
structure PoolState where
  server_path : String
  pool_size : Nat
  available : List Nat
  in_use : Finset Nat
  initialized : Bool
  cleanup_done : Bool
  nextId : Nat
deriving DecidableEq

/-- Model of `MCPConnectionPool.__init__` (`client.py:134-142`). -/
def PoolState.init (server_path : String) (pool_size : Nat) : PoolState :=
  { server_path := server_path
    pool_size := pool_size
    available := []
    in_use := ∅
    initialized := false
    cleanup_done := false
    nextId := 0 }

/-- Model of `MCPConnectionPool.get_client` (`client.py:174-181`): under the lock,
if `available` is empty return `None`; otherwise `pop()` the last element,
add it to `in_use` and return it. -/
def get_client (st : PoolState) : Option Nat × PoolState :=
  match st.available.getLast? with
  | none => (none, st)
  | some c =>
      (some c,
        { st with
            available := st.available.dropLast
            in_use := insert c st.in_use })

/-- Model of `MCPConnectionPool.return_client` (`client.py:183-196`): under the lock,
if the client is in `in_use`, remove it; if `client.connected`, append it to
`available`; otherwise attempt exactly one reconnect
(`connect_to_server`) and append on success, while a failed reconnect is
caught (only logged) and the client is dropped.  A client not in `in_use`
is ignored.  `connected` is the value of `client.connected`, `reconnectOk`
the outcome of the single reconnect attempt. -/
def return_client (connected reconnectOk : Bool) (c : Nat) (st : PoolState) :
    PoolState :=
  if c ∈ st.in_use then
    let st' := { st with in_use := st.in_use.erase c }
    if connected then
      { st' with available := st'.available ++ [c] }
    else
      if reconnectOk then
        { st' with available := st'.available ++ [c] }
      else
        st'
  else
    st

/-- Model of `MCPConnectionPool.initialize_pool` (`client.py:155-172`): a no-op when
`initialized` is already set; otherwise it tries to create and connect
`pool_size` fresh clients, appending each successfully connected one to
`available` (failures are caught and only logged), then sets `initialized`.
`connectOk i` is the outcome of the `i`-th `connect_to_server` call. -/
def initialize_pool (connectOk : Nat → Bool) (st : PoolState) : PoolState :=
  if st.initialized then st
  else
    { st with
        available :=
          st.available ++
            (List.range st.pool_size).filterMap
              (fun i => if connectOk i then some (st.nextId + i) else none)
        initialized := true
        nextId := st.nextId + st.pool_size }

/-- Model of `MCPConnectionPool.cleanup_pool` (`client.py:233-268`): a no-op when
`_cleanup_done` is already set; otherwise it sets `_cleanup_done`, clears
`available` and `in_use`, and tears sessions down.  Note that it does NOT
reset `initialized`. -/
def cleanup_pool (st : PoolState) : PoolState :=
  if st.cleanup_done then st
  else
    { st with
        cleanup_done := true
        available := []
        in_use := ∅ }

/-- The `/health/reconnect` endpoint `force_reconnect` (`src/app.py:96-104`):
`cleanup_pool` followed by `initialize_pool` (no exception can escape either
one in the model, so the endpoint always reports success). -/
def force_reconnect (connectOk : Nat → Bool) (st : PoolState) : PoolState :=
  initialize_pool connectOk (cleanup_pool st)

/-- One pool operation: an acquire, or a release of session `c` whose
`connected` flag and reconnect outcome are as recorded. -/
inductive PoolOp where
  | acquire : PoolOp
  | release (connected reconnectOk : Bool) (c : Nat) : PoolOp
deriving DecidableEq, Repr

/-- Apply one operation to the pool (the result of `get_client` is
discarded; only the state evolution matters for the invariant). -/
def applyOp (op : PoolOp) (st : PoolState) : PoolState :=
  match op with
  | .acquire => (get_client st).2
  | .release connected reconnectOk c => return_client connected reconnectOk c st

/-- Apply a sequence of operations, left to right. -/
def applyOps (ops : List PoolOp) (st : PoolState) : PoolState :=
  ops.foldl (fun st op => applyOp op st) st

/-- The pool partition invariant: `available` holds pairwise distinct
sessions (both containers are sets of sessions, as a Python `list` of
distinct client objects and a Python `set`), no session is in both
containers, and the sizes sum to at most the capacity `pool_size`. -/
def poolInv (st : PoolState) : Prop :=
  st.available.Nodup ∧
    (∀ c ∈ st.available, c ∉ st.in_use) ∧
    st.available.length + st.in_use.card ≤ st.pool_size

instance (st : PoolState) : Decidable (poolInv st) := by
  unfold poolInv; infer_instance

/-- One content block of a reasoning-service response
(`response.content` in `MCPClient.process_query`, `client.py:80-97`).
A block with `type = "tool_use"` is a tool-invocation request carrying
`name`, `input` and `id`; any other block carries `text`. -/
structure Block where
  type : String
  name : String
  input : String
  id : String
  text : String
deriving DecidableEq

/-- The content list of one reasoning-service response. -/
abbrev ResponseContent : Type := List Block

/-- Test that `pat` is a prefix of `s` (character lists). -/
def hasPref : List Char → List Char → Bool
  | [], _ => true
  | _ :: _, [] => false
  | p :: ps, s :: ss => p == s && hasPref ps ss

/-- Test that `pat` occurs somewhere in `s` (character lists). -/
def hasSub (pat : List Char) : List Char → Bool
  | [] => pat.isEmpty
  | s :: ss => hasPref pat (s :: ss) || hasSub pat ss

/-- Python's substring test `pat in s` (used as `"url" in tool_content`
at `client.py:109`). -/
def strIn (pat s : String) : Bool :=
  hasSub pat.data s.data

/-- The artifact-capture step (`client.py:109-111`): whenever the literal
substring `"url"` occurs anywhere in `tool_content`, the whole text is
parsed as JSON and its `"url"` field is read, replacing the captured `url`;
otherwise `url` is kept.  `jsonUrl` abstracts the Python standard library
call `json.loads(tool_content)["url"]`: `some u` when it yields `u`, `none`
when any step of it raises (invalid JSON, missing key, non-indexable
value); `.error ()` is that uncaught exception propagating. -/
def captureStep (jsonUrl : String → Option String) (tool_content url : String) :
    Except Unit String :=
  if strIn "url" tool_content then
    match jsonUrl tool_content with
    | some u => .ok u
    | none => .error ()
  else
    .ok url

/-- The per-round tool-execution loop (`client.py:94-111`): execute each
tool call in order via `callTool` (abstracting
`session.call_tool` followed by the `result.content[0].text` extraction,
which is worker I/O), then run the capture step on its textual result. -/
def runCalls (jsonUrl : String → Option String)
    (callTool : String → String → String) :
    List Block → String → Except Unit String
  | [], url => .ok url
  | c :: rest, url =>
      match captureStep jsonUrl (callTool c.name c.input) url with
      | .error e => .error e
      | .ok url' => runCalls jsonUrl callTool rest url'

/-- Line `client.py:87`: the tool-invocation requests of a response. -/
def toolCalls (resp : ResponseContent) : List Block :=
  resp.filter (fun b => b.type == "tool_use")

/-- Constant `max_iterations` (`client.py:66`). -/
def max_iterations : Nat := 10

/-- The `while iteration < max_iterations` loop of `MCPClient.process_query`
(`client.py:69-119`), with `fuel = max_iterations - iteration`.  `respond r`
is the reasoning-service response of round `r` (the external Anthropic API
call at `client.py:73-78`, indexed by round; conversation-history
bookkeeping influences only that external service, so it is not part of
the state).  The result pairs the returned value (`.ok url` for the
`return url` at `client.py:119`, `.error` for an uncaught exception) with
the number of reasoning rounds performed. -/
def pqLoop (jsonUrl : String → Option String)
    (callTool : String → String → String)
    (respond : Nat → ResponseContent) :
    Nat → Nat → String → Except Unit String × Nat
  | 0, iteration, url => (.ok url, iteration)
  | fuel + 1, iteration, url =>
      let it := iteration + 1
      let calls := toolCalls (respond it)
      if calls.isEmpty then
        (.ok url, it)
      else
        match runCalls jsonUrl callTool calls url with
        | .error e => (.error e, it)
        | .ok url' => pqLoop jsonUrl callTool respond fuel it url'

/-- Model of `MCPClient.process_query` (`client.py:48-119`): `url` starts empty,
`iteration` at `0`, and the loop runs with `max_iterations` fuel. -/
def process_query (jsonUrl : String → Option String)
    (callTool : String → String → String)
    (respond : Nat → ResponseContent) : Except Unit String × Nat :=
  pqLoop jsonUrl callTool respond max_iterations 0 ""

/-- Specification-side view: the artifact references captured by one
round's tool calls, in processing order. -/
def capturesOfCalls (jsonUrl : String → Option String)
    (callTool : String → String → String) (calls : List Block) : List String :=
  calls.filterMap (fun c =>
    let tc := callTool c.name c.input
    if strIn "url" tc then jsonUrl tc else none)

/-- Specification-side view: all captures of rounds
`start, …, start + len - 1`, in processing order. -/
def capturesRange (jsonUrl : String → Option String)
    (callTool : String → String → String) (respond : Nat → ResponseContent)
    (start len : Nat) : List String :=
  (List.range' start len).flatMap
    (fun r => capturesOfCalls jsonUrl callTool (toolCalls (respond r)))

/-- Round `r`'s captures all succeed: wherever the substring trigger
fires, the JSON parse and field lookup yield a value. -/
def capturesOk (jsonUrl : String → Option String)
    (callTool : String → String → String) (respond : Nat → ResponseContent)
    (r : Nat) : Prop :=
  ∀ c ∈ toolCalls (respond r),
    strIn "url" (callTool c.name c.input) = true →
      (jsonUrl (callTool c.name c.input)).isSome

/-- The text of a response (concatenated block texts) — used to compare
the code's return value with "the response itself". -/
def responseText (resp : ResponseContent) : String :=
  String.join (resp.map (fun b => b.text))

/-- Constant `RATE_LIMIT_WINDOW` (`src/app.py:28`), in seconds. -/
def RATE_LIMIT_WINDOW : Int := 60

/-- Constant `RATE_LIMIT_MAX_REQUESTS` (`src/app.py:29`). -/
def RATE_LIMIT_MAX_REQUESTS : Nat := 10

/-- Model of `check_rate_limit` (`src/app.py:31-44`) acting on one caller key's
record `request_counts[client_ip]` (keys of the `defaultdict` are
independent).  Timestamps (`time.time()` values) are modelled as
integers — pruning and admission depend only on differences against the
window.  The record is first pruned of entries older than the window (and
the pruned record is stored back); if the remaining count has reached the
threshold the call is rejected, otherwise the current time is appended and
the call admitted. -/
def check_rate_limit (now : Int) (record : List Int) : Bool × List Int :=
  let pruned := record.filter (fun t => now - t < RATE_LIMIT_WINDOW)
  if RATE_LIMIT_MAX_REQUESTS ≤ pruned.length then
    (false, pruned)
  else
    (true, pruned ++ [now])

/-- A sequence of `check_rate_limit` calls at the given times for one key:
the list of admission decisions and the final record. -/
def admitSeq : List Int → List Int → List Bool × List Int
  | [], record => ([], record)
  | t :: ts, record =>
      let step := check_rate_limit t record
      let rest := admitSeq ts step.2
      (step.1 :: rest.1, rest.2)

/-- Python's `s.startswith(pre)` (used at `src/app.py:64`). -/
def strStartsWith (s pre : String) : Bool :=
  hasPref pre.data s.data

/-- HTTP outcome of an endpoint: a success body or an `HTTPException`
reaching the framework, with status code and detail. -/
inductive HttpOutcome where
  | ok (result : String)
  | httpError (status : Nat) (detail : String)
deriving DecidableEq

/-- Rendering of `str(e)` for a `fastapi.HTTPException`: starlette's
`HTTPException.__str__` renders `"{status_code}: {detail}"`. -/
def strOfHTTPException (status : Nat) (detail : String) : String :=
  toString status ++ ": " ++ detail

/-- Model of `MCPConnectionPool.process_resume_request` (`client.py:198-231`):
acquire a client from the pool; if none is available return the
pool-exhausted error string; otherwise run `process_query` on the built
prompt and return the client in the `finally` block.  `queryOutcome c`
abstracts the outcome of `self._run_async(client.process_query(query))`
for client `c` (it depends on the external reasoning service and worker):
`.ok r` is a normal return, `.error e` an exception rendered as `str(e)`,
which the `except` clause turns into an error string.  The
`resume_data`/`job_description` strings only feed the prompt sent to that
external service. -/
def process_resume_request (connected reconnectOk : Nat → Bool)
    (queryOutcome : Nat → Except String String) (st : PoolState) :
    String × PoolState :=
  match get_client st with
  | (none, st1) =>
      ("Error: No available MCP connections. Please try again.", st1)
  | (some c, st1) =>
      let result :=
        match queryOutcome c with
        | .ok r => r
        | .error e => "Error processing resume: " ++ e
      (result, return_client (connected c) (reconnectOk c) c st1)

/-- The `/api/tailor_resume` endpoint (`src/app.py:50-70`).  The whole
handler body runs inside `try: ... except Exception as e: raise
HTTPException(status_code=500, detail=str(e))`; since `HTTPException` is a
subclass of `Exception`, every `HTTPException` raised inside the `try` —
the 429 rate-limit rejection, the 400 validation error and the 503 pool
error alike — is caught by that clause and re-raised as status 500
wrapping the stringified original.  `now` is the request time and
`record` the caller key's (`X-Forwarded-For` / client host) rate-limit
record; the returned triple is the HTTP outcome, the key's updated record
and the resulting pool state. -/
def tailor_resume (now : Int) (record : List Int)
    (resume_data job_description : String)
    (connected reconnectOk : Nat → Bool)
    (queryOutcome : Nat → Except String String) (st : PoolState) :
    HttpOutcome × List Int × PoolState :=
  let rl := check_rate_limit now record
  if rl.1 = false then
    (.httpError 500 (strOfHTTPException 429
        "Rate limit exceeded. Please try again later."), rl.2, st)
  else if resume_data = "" || job_description = "" then
    (.httpError 500 (strOfHTTPException 400
        "Missing resume_data or job_description"), rl.2, st)
  else
    let pr := process_resume_request connected reconnectOk queryOutcome st
    if strStartsWith pr.1 "Error:" then
      (.httpError 500 (strOfHTTPException 503 pr.1), rl.2, pr.2)
    else
      (.ok pr.1, rl.2, pr.2)

lemma list_concat_decomp {l : List Nat} {c : Nat} (h : l.getLast? = some c) :
    l = l.dropLast ++ [c] := by
  rcases List.eq_nil_or_concat' l with rfl | ⟨l', a, rfl⟩
  · simp at h
  · have ha : a = c := by simpa using h
    subst ha
    simp

lemma get_client_none {st : PoolState} (h : st.available.getLast? = none) :
    get_client st = (none, st) := by
  unfold get_client; rw [h]

lemma get_client_some {st : PoolState} {c : Nat}
    (h : st.available.getLast? = some c) :
    get_client st =
      (some c,
        { st with
            available := st.available.dropLast
            in_use := insert c st.in_use }) := by
  unfold get_client; rw [h]

lemma get_client_preserves (st : PoolState) (h : poolInv st) :
    poolInv (get_client st).2 := by
  obtain ⟨hnd, hdisj, hsize⟩ := h
  cases hlast : st.available.getLast? with
  | none => rw [get_client_none hlast]; exact ⟨hnd, hdisj, hsize⟩
  | some c =>
      rw [get_client_some hlast]
      have hdec := list_concat_decomp hlast
      have hc_mem : c ∈ st.available := by rw [hdec]; simp
      have hnd' : (st.available.dropLast ++ [c]).Nodup := by rw [← hdec]; exact hnd
      have hc_not_drop : c ∉ st.available.dropLast := by
        intro hmem
        rcases List.nodup_append.mp hnd' with ⟨_, _, hdj⟩
        exact hdj hmem (by simp)
      refine ⟨?_, ?_, ?_⟩
      · exact (List.nodup_append.mp hnd').1
      · intro x hx
        have hx_mem : x ∈ st.available := by rw [hdec]; exact List.mem_append_left _ hx
        have hx_ne : x ≠ c := fun hxc => hc_not_drop (hxc ▸ hx)
        simp only [Finset.mem_insert]
        push_neg
        exact ⟨hx_ne, hdisj x hx_mem⟩
      · show st.available.dropLast.length + (insert c st.in_use).card ≤ st.pool_size
        have hlen : st.available.length = st.available.dropLast.length + 1 := by
          conv_lhs => rw [hdec]
          simp
        have hcard : (insert c st.in_use).card ≤ st.in_use.card + 1 :=
          Finset.card_insert_le _ _
        omega

lemma return_client_preserves (connected reconnectOk : Bool) (c : Nat)
    (st : PoolState) (h : poolInv st) :
    poolInv (return_client connected reconnectOk c st) := by
  obtain ⟨hnd, hdisj, hsize⟩ := h
  unfold return_client
  by_cases hc : c ∈ st.in_use
  · have hc_avail : c ∉ st.available := fun hmem => hdisj c hmem hc
    have hcard_erase : (st.in_use.erase c).card + 1 = st.in_use.card :=
      Finset.card_erase_add_one hc
    have happend : poolInv
        { st with in_use := st.in_use.erase c,
                  available := st.available ++ [c] } := by
      refine ⟨?_, ?_, ?_⟩
      · refine List.nodup_append.mpr ⟨hnd, List.nodup_singleton c, ?_⟩
        intro x hx hy
        simp only [List.mem_singleton] at hy
        subst hy
        exact hc_avail hx
      · intro x hx
        rcases List.mem_append.mp hx with hx' | hx'
        · exact fun hmem => hdisj x hx' (Finset.mem_of_mem_erase hmem)
        · simp only [List.mem_singleton] at hx'
          subst hx'
          exact Finset.not_mem_erase _ _
      · show (st.available ++ [c]).length + (st.in_use.erase c).card ≤ st.pool_size
        simp only [List.length_append, List.length_singleton]
        omega
    have hdrop : poolInv { st with in_use := st.in_use.erase c } := by
      refine ⟨hnd, ?_, ?_⟩
      · exact fun x hx hmem => hdisj x hx (Finset.mem_of_mem_erase hmem)
      · show st.available.length + (st.in_use.erase c).card ≤ st.pool_size
        have hle : (st.in_use.erase c).card ≤ st.in_use.card :=
          Finset.card_erase_le
        omega
    simp only [hc, if_true]
    cases connected with
    | true => simpa using happend
    | false =>
        cases reconnectOk with
        | true => simpa using happend
        | false => simpa using hdrop
  · simp only [hc, if_false]
    exact ⟨hnd, hdisj, hsize⟩

lemma applyOp_preserves (op : PoolOp) (st : PoolState) (h : poolInv st) :
    poolInv (applyOp op st) := by
  cases op with
  | acquire => exact get_client_preserves st h
  | release connected reconnectOk c =>
      exact return_client_preserves connected reconnectOk c st h

lemma applyOps_preserves (ops : List PoolOp) (st : PoolState) (h : poolInv st) :
    poolInv (applyOps ops st) := by
  induction ops generalizing st with
  | nil => exact h
  | cons op rest ih =>
      exact ih (applyOp op st) (applyOp_preserves op st h)

/-- C1. The pool partition invariant — `available` and `in_use` are
disjoint (no session in both containers, `available` duplicate-free as a
set of sessions) and their sizes sum to at most the capacity — is
preserved by every sequence of acquire (`get_client`) and release
(`return_client`) operations; and releasing a session that is not in
`in_use` leaves the pool state (both containers included) unchanged, so a
session is never returned twice without an intervening acquire. -/
theorem pool_partition_invariant (ops : List PoolOp) (st : PoolState)
    (h : poolInv st) :
    poolInv (applyOps ops st) ∧
      ∀ connected reconnectOk c, c ∉ st.in_use →
        return_client connected reconnectOk c st = st := by
  refine ⟨applyOps_preserves ops st h, ?_⟩
  intro connected reconnectOk c hc
  unfold return_client
  simp [hc]

/-- Witness for C1 at a concrete pool state and operation sequence. -/
theorem pool_partition_invariant_witness :
    poolInv (applyOps
        [PoolOp.acquire, PoolOp.release false false 2, PoolOp.acquire]
        { PoolState.init "server.py" 3 with available := [0, 1, 2] }) ∧
      return_client true true 7
        { PoolState.init "server.py" 3 with available := [0, 1, 2] } =
        { PoolState.init "server.py" 3 with available := [0, 1, 2] } := by
  have h := pool_partition_invariant
    [PoolOp.acquire, PoolOp.release false false 2, PoolOp.acquire]
    { PoolState.init "server.py" 3 with available := [0, 1, 2] }
    (by decide)
  exact ⟨h.1, h.2 true true 7 (by decide)⟩

/-- C2. `get_client` returns `none` (Python `None`, a distinct
"pool exhausted" outcome rather than a raised error) exactly when
`available` is empty; otherwise it pops the last session off `available`,
adds that same session to `in_use`, and returns it, leaving every other
session — the remaining `available` prefix and all of `in_use` — exactly
where it was. -/
theorem get_client_exhaustion_or_pop (st : PoolState) (l : List Nat) (c : Nat) :
    (st.available = [] → get_client st = (none, st)) ∧
    (st.available = l ++ [c] →
      get_client st =
        (some c, { st with available := l, in_use := insert c st.in_use })) := by
  constructor
  · intro h
    apply get_client_none
    rw [h]
    rfl
  · intro h
    have hlast : st.available.getLast? = some c := by rw [h]; simp
    have hdrop : st.available.dropLast = l := by rw [h]; simp
    rw [get_client_some hlast, hdrop]

/-- Witness for C2: an empty pool yields `none`; a pool with
`available = [1, 2]` yields session `2`, leaving `[1]` available. -/
theorem get_client_exhaustion_or_pop_witness :
    get_client (PoolState.init "server.py" 3) =
      (none, PoolState.init "server.py" 3) ∧
    get_client { PoolState.init "server.py" 3 with available := [1, 2] } =
      (some 2,
        { PoolState.init "server.py" 3 with
            available := [1]
            in_use := insert 2 ∅ }) :=
  ⟨(get_client_exhaustion_or_pop (PoolState.init "server.py" 3) [] 0).1 rfl,
   (get_client_exhaustion_or_pop
      { PoolState.init "server.py" 3 with available := [1, 2] } [1] 2).2 rfl⟩

/-- C3. Releasing a session `c` that is in `in_use` removes it from
`in_use`, and then: if `c.connected`, appends it to `available`; otherwise
exactly one reconnect attempt is made — on success `c` is appended to
`available`, on failure `c` ends up in neither container and the combined
pool size shrinks by one.  The failed reconnect is caught inside
`return_client` (a total function here), so no error reaches the caller. -/
theorem release_reconnect_policy (st : PoolState) (c : Nat)
    (hin : c ∈ st.in_use) (hav : c ∉ st.available) :
    (∀ reconnectOk, return_client true reconnectOk c st =
        { st with
            in_use := st.in_use.erase c
            available := st.available ++ [c] }) ∧
    return_client false true c st =
      { st with
          in_use := st.in_use.erase c
          available := st.available ++ [c] } ∧
    return_client false false c st = { st with in_use := st.in_use.erase c } ∧
    c ∉ (return_client false false c st).available ∧
    c ∉ (return_client false false c st).in_use ∧
    (return_client false false c st).available.length +
        (return_client false false c st).in_use.card + 1 =
      st.available.length + st.in_use.card := by
  have hdrop : return_client false false c st =
      { st with in_use := st.in_use.erase c } := by
    unfold return_client
    simp [hin]
  refine ⟨?_, ?_, hdrop, ?_, ?_, ?_⟩
  · intro reconnectOk
    unfold return_client
    simp [hin]
  · unfold return_client
    simp [hin]
  · rw [hdrop]
    exact hav
  · rw [hdrop]
    exact Finset.not_mem_erase _ _
  · rw [hdrop]
    show st.available.length + (st.in_use.erase c).card + 1 =
      st.available.length + st.in_use.card
    have := Finset.card_erase_add_one hin
    omega

/-- Witness for C3 at a concrete pool state: releasing connected session
`1` returns it to `available`; releasing it disconnected with a failed
reconnect drops it, shrinking the pool from 3 sessions to 2. -/
theorem release_reconnect_policy_witness :
    return_client true false 1
        { PoolState.init "server.py" 3 with available := [0], in_use := {1, 2} } =
      { PoolState.init "server.py" 3 with
          available := [0, 1]
          in_use := ({1, 2} : Finset Nat).erase 1 } ∧
    (return_client false false 1
        { PoolState.init "server.py" 3 with
            available := [0], in_use := {1, 2} }).available.length +
      (return_client false false 1
        { PoolState.init "server.py" 3 with
            available := [0], in_use := {1, 2} }).in_use.card + 1 = 3 := by
  have h := release_reconnect_policy
    { PoolState.init "server.py" 3 with available := [0], in_use := {1, 2} } 1
    (by decide) (by decide)
  exact ⟨h.1 false, h.2.2.2.2.2.trans (by decide)⟩

/-- C9 evidence: the `/health/reconnect` endpoint does NOT re-initialize
the pool.  Starting from a freshly initialized pool of capacity 3 with all
connections succeeding, `force_reconnect` leaves `available` empty:
`cleanup_pool` clears the containers but never resets `initialized`, so
the subsequent `initialize_pool` call returns immediately as a no-op (and
`_cleanup_done` additionally makes a second cleanup a no-op).  A second
invocation leaves the pool empty as well. -/
theorem force_reconnect_leaves_pool_empty :
    (initialize_pool (fun _ => true) (PoolState.init "server.py" 3)).available =
        [0, 1, 2] ∧
    (force_reconnect (fun _ => true)
        (initialize_pool (fun _ => true)
          (PoolState.init "server.py" 3))).available = [] ∧
    (force_reconnect (fun _ => true)
        (force_reconnect (fun _ => true)
          (initialize_pool (fun _ => true)
            (PoolState.init "server.py" 3)))).available = [] := by
  decide

lemma getLastD_append_right (a b : List String) (d : String) :
    (a ++ b).getLastD d = b.getLastD (a.getLastD d) := by
  induction a generalizing d with
  | nil => rfl
  | cons x xs ih =>
      rw [List.cons_append, List.getLastD_cons, List.getLastD_cons, ih]

lemma capturesOfCalls_cons_hit {jsonUrl : String → Option String}
    {callTool : String → String → String} {c : Block} {rest : List Block}
    {v : String} (hsub : strIn "url" (callTool c.name c.input) = true)
    (hv : jsonUrl (callTool c.name c.input) = some v) :
    capturesOfCalls jsonUrl callTool (c :: rest) =
      v :: capturesOfCalls jsonUrl callTool rest := by
  unfold capturesOfCalls
  rw [List.filterMap_cons]
  simp only [hsub, hv, if_true]

lemma capturesOfCalls_cons_miss {jsonUrl : String → Option String}
    {callTool : String → String → String} {c : Block} {rest : List Block}
    (hsub : strIn "url" (callTool c.name c.input) = false) :
    capturesOfCalls jsonUrl callTool (c :: rest) =
      capturesOfCalls jsonUrl callTool rest := by
  unfold capturesOfCalls
  rw [List.filterMap_cons]
  simp only [hsub, Bool.false_eq_true, if_false]

lemma runCalls_ok (jsonUrl : String → Option String)
    (callTool : String → String → String) (calls : List Block) (u : String)
    (h : ∀ c ∈ calls, strIn "url" (callTool c.name c.input) = true →
        (jsonUrl (callTool c.name c.input)).isSome) :
    runCalls jsonUrl callTool calls u =
      .ok ((capturesOfCalls jsonUrl callTool calls).getLastD u) := by
  induction calls generalizing u with
  | nil => rfl
  | cons c rest ih =>
      by_cases hsub : strIn "url" (callTool c.name c.input) = true
      · obtain ⟨v, hv⟩ := Option.isSome_iff_exists.mp (h c (by simp) hsub)
        rw [runCalls]
        rw [show captureStep jsonUrl (callTool c.name c.input) u = .ok v by
          unfold captureStep; rw [hsub, hv]; rfl]
        show runCalls jsonUrl callTool rest v =
          Except.ok ((capturesOfCalls jsonUrl callTool (c :: rest)).getLastD u)
        rw [ih v (fun c hc => h c (List.mem_cons_of_mem _ hc))]
        rw [capturesOfCalls_cons_hit hsub hv, List.getLastD_cons]
      · rw [runCalls]
        rw [show captureStep jsonUrl (callTool c.name c.input) u = .ok u by
          unfold captureStep
          rw [Bool.not_eq_true] at hsub
          rw [hsub]; rfl]
        show runCalls jsonUrl callTool rest u =
          Except.ok ((capturesOfCalls jsonUrl callTool (c :: rest)).getLastD u)
        rw [ih u (fun c hc => h c (List.mem_cons_of_mem _ hc))]
        have hsub' : strIn "url" (callTool c.name c.input) = false := by
          rw [← Bool.not_eq_true]; exact hsub
        rw [capturesOfCalls_cons_miss hsub']

lemma capturesRange_zero (jsonUrl : String → Option String)
    (callTool : String → String → String) (respond : Nat → ResponseContent)
    (start : Nat) :
    capturesRange jsonUrl callTool respond start 0 = [] := rfl

lemma capturesRange_succ (jsonUrl : String → Option String)
    (callTool : String → String → String) (respond : Nat → ResponseContent)
    (start len : Nat) :
    capturesRange jsonUrl callTool respond start (len + 1) =
      capturesOfCalls jsonUrl callTool (toolCalls (respond start)) ++
        capturesRange jsonUrl callTool respond (start + 1) len := by
  unfold capturesRange
  rw [List.range'_succ, List.flatMap_cons]

lemma pqLoop_zero (jsonUrl : String → Option String)
    (callTool : String → String → String) (respond : Nat → ResponseContent)
    (it : Nat) (u : String) :
    pqLoop jsonUrl callTool respond 0 it u = (.ok u, it) := rfl

lemma pqLoop_succ_stop {jsonUrl : String → Option String}
    {callTool : String → String → String} {respond : Nat → ResponseContent}
    {f it : Nat} {u : String} (h : toolCalls (respond (it + 1)) = []) :
    pqLoop jsonUrl callTool respond (f + 1) it u = (.ok u, it + 1) := by
  unfold pqLoop
  simp [h]

lemma pqLoop_succ_go {jsonUrl : String → Option String}
    {callTool : String → String → String} {respond : Nat → ResponseContent}
    {f it : Nat} {u : String} (hne : toolCalls (respond (it + 1)) ≠ []) :
    pqLoop jsonUrl callTool respond (f + 1) it u =
      (match runCalls jsonUrl callTool (toolCalls (respond (it + 1))) u with
        | .error e => (.error e, it + 1)
        | .ok url' => pqLoop jsonUrl callTool respond f (it + 1) url') := by
  conv_lhs => unfold pqLoop
  simp [List.isEmpty_eq_false.mpr hne]

lemma pqLoop_rounds_le (jsonUrl : String → Option String)
    (callTool : String → String → String) (respond : Nat → ResponseContent) :
    ∀ f it u, (pqLoop jsonUrl callTool respond f it u).2 ≤ it + f := by
  intro f
  induction f with
  | zero => intro it u; rw [pqLoop_zero]; omega
  | succ f ih =>
      intro it u
      by_cases h : toolCalls (respond (it + 1)) = []
      · rw [pqLoop_succ_stop h]; show it + 1 ≤ it + (f + 1); omega
      · rw [pqLoop_succ_go h]
        cases hrc : runCalls jsonUrl callTool (toolCalls (respond (it + 1))) u with
        | error e => show it + 1 ≤ it + (f + 1); omega
        | ok url' =>
            show (pqLoop jsonUrl callTool respond f (it + 1) url').2 ≤ it + (f + 1)
            have := ih (it + 1) url'
            omega

lemma pqLoop_run (jsonUrl : String → Option String)
    (callTool : String → String → String) (respond : Nat → ResponseContent) :
    ∀ f it u,
      (∀ r, it < r → r ≤ it + f →
          toolCalls (respond r) ≠ [] ∧ capturesOk jsonUrl callTool respond r) →
      pqLoop jsonUrl callTool respond f it u =
        (.ok ((capturesRange jsonUrl callTool respond (it + 1) f).getLastD u),
          it + f) := by
  intro f
  induction f with
  | zero =>
      intro it u _
      rw [pqLoop_zero, capturesRange_zero]
      rfl
  | succ f ih =>
      intro it u h
      obtain ⟨hne, hok⟩ := h (it + 1) (by omega) (by omega)
      rw [pqLoop_succ_go hne, runCalls_ok _ _ _ _ hok]
      show pqLoop jsonUrl callTool respond f (it + 1)
          ((capturesOfCalls jsonUrl callTool
            (toolCalls (respond (it + 1)))).getLastD u) = _
      rw [ih (it + 1) _ (fun r h1 h2 => h r (by omega) (by omega))]
      rw [capturesRange_succ, getLastD_append_right]
      congr 1
      omega

lemma pqLoop_stop (jsonUrl : String → Option String)
    (callTool : String → String → String) (respond : Nat → ResponseContent) :
    ∀ j f it u, j + 1 ≤ f →
      (∀ r, it < r → r ≤ it + j →
          toolCalls (respond r) ≠ [] ∧ capturesOk jsonUrl callTool respond r) →
      toolCalls (respond (it + j + 1)) = [] →
      pqLoop jsonUrl callTool respond f it u =
        (.ok ((capturesRange jsonUrl callTool respond (it + 1) j).getLastD u),
          it + j + 1) := by
  intro j
  induction j with
  | zero =>
      intro f it u hf h hstop
      obtain ⟨f', rfl⟩ : ∃ f', f = f' + 1 := ⟨f - 1, by omega⟩
      rw [pqLoop_succ_stop (by simpa using hstop), capturesRange_zero]
      rfl
  | succ j ih =>
      intro f it u hf h hstop
      obtain ⟨f', rfl⟩ : ∃ f', f = f' + 1 := ⟨f - 1, by omega⟩
      obtain ⟨hne, hok⟩ := h (it + 1) (by omega) (by omega)
      have hstop' : toolCalls (respond (it + 1 + j + 1)) = [] := by
        have harith : it + 1 + j + 1 = it + (j + 1) + 1 := by omega
        rw [harith]; exact hstop
      rw [pqLoop_succ_go hne, runCalls_ok _ _ _ _ hok]
      show pqLoop jsonUrl callTool respond f' (it + 1)
          ((capturesOfCalls jsonUrl callTool
            (toolCalls (respond (it + 1)))).getLastD u) = _
      rw [ih f' (it + 1) _ (by omega)
        (fun r h1 h2 => h r (by omega) (by omega)) hstop']
      rw [capturesRange_succ, getLastD_append_right]
      congr 1
      omega

lemma pqLoop_error_round1 (jsonUrl : String → Option String)
    (callTool : String → String → String) (respond : Nat → ResponseContent)
    (f it : Nat) (u : String)
    (hne : toolCalls (respond (it + 1)) ≠ [])
    (herr : runCalls jsonUrl callTool (toolCalls (respond (it + 1))) u =
      .error ()) :
    pqLoop jsonUrl callTool respond (f + 1) it u = (.error (), it + 1) := by
  rw [pqLoop_succ_go hne, herr]

/-- C4. For every reasoning-service response sequence — including an
adversarial one whose every response requests tool calls — the
orchestration loop of `process_query` performs at most
`max_iterations = 10` reasoning rounds and terminates with a value. -/
theorem orchestration_loop_bounded (jsonUrl : String → Option String)
    (callTool : String → String → String) (respond : Nat → ResponseContent) :
    ∃ result rounds,
      process_query jsonUrl callTool respond = (result, rounds) ∧
        rounds ≤ max_iterations := by
  refine ⟨(process_query jsonUrl callTool respond).1,
    (process_query jsonUrl callTool respond).2, rfl, ?_⟩
  have h := pqLoop_rounds_le jsonUrl callTool respond max_iterations 0 ""
  simpa [process_query] using h

/-- C5 counterexample: on a first response with zero tool-invocation
requests, `process_query` returns the initial empty `url`
(`return url` at `client.py:119`), NOT the response itself — the
response's text is `"Here is your resume."` and is nowhere in the
result. -/
theorem done_response_not_returned :
    process_query (fun _ => none) (fun _ _ => "")
        (fun _ => [⟨"text", "", "", "", "Here is your resume."⟩]) =
      (.ok "", 1) ∧
    responseText [⟨"text", "", "", "", "Here is your resume."⟩] =
      "Here is your resume." ∧
    ("" : String) ≠ "Here is your resume." := by
  refine ⟨rfl, rfl, by decide⟩

/-- C5 (amended): when the response of round `j + 1` contains zero
tool-invocation requests (all earlier rounds requesting tools and
capturing without error), the loop exits and `process_query` returns the
currently captured artifact reference — the last captured `url`, or the
empty string if none was captured — rather than the response itself. -/
theorem done_round_returns_captured_url (jsonUrl : String → Option String)
    (callTool : String → String → String) (respond : Nat → ResponseContent)
    (j : Nat) (hj : j + 1 ≤ max_iterations)
    (h : ∀ r, 1 ≤ r → r ≤ j →
        toolCalls (respond r) ≠ [] ∧ capturesOk jsonUrl callTool respond r)
    (hstop : toolCalls (respond (j + 1)) = []) :
    process_query jsonUrl callTool respond =
      (.ok ((capturesRange jsonUrl callTool respond 1 j).getLastD ""),
        j + 1) := by
  unfold process_query
  have hrun := pqLoop_stop jsonUrl callTool respond j max_iterations 0 "" hj
    (fun r h1 h2 => h r (by omega) (by omega)) (by simpa using hstop)
  simpa using hrun

/-- Witness for the amended C5: a first no-tool-call response makes
`process_query` return the empty string after one round. -/
theorem done_round_returns_captured_url_witness :
    process_query (fun _ => none) (fun _ _ => "result text")
        (fun _ => [⟨"text", "", "", "", "done"⟩]) = (.ok "", 1) := by
  have h := done_round_returns_captured_url (fun _ => none)
    (fun _ _ => "result text") (fun _ => [⟨"text", "", "", "", "done"⟩]) 0
    (by decide) (fun r h1 h2 => absurd (h1.trans h2) (by decide)) rfl
  exact h.trans (by rfl)

/-- C6. When every one of the ten rounds' responses requests tool calls
(and every capture step succeeds), `process_query` runs exactly
`max_iterations = 10` rounds and returns, as a normal `.ok` value, the
most recently captured artifact reference over all tool results in
processing order — so among several capturing tool results of one round
the last processed wins — or the empty string if no reference was ever
captured. -/
theorem iteration_cap_returns_last_capture (jsonUrl : String → Option String)
    (callTool : String → String → String) (respond : Nat → ResponseContent)
    (h : ∀ r, 1 ≤ r → r ≤ max_iterations →
        toolCalls (respond r) ≠ [] ∧ capturesOk jsonUrl callTool respond r) :
    process_query jsonUrl callTool respond =
      (.ok ((capturesRange jsonUrl callTool respond 1 max_iterations).getLastD
          ""),
        max_iterations) := by
  unfold process_query
  have hrun := pqLoop_run jsonUrl callTool respond max_iterations 0 ""
    (fun r h1 h2 => h r (by omega) (by omega))
  simpa using hrun

/-- Witness for C6: ten all-tool-call rounds whose tool results carry a
url; the loop stops at round 10 with the last capture. -/
theorem iteration_cap_returns_last_capture_witness :
    process_query (fun _ => some "artifact-7") (fun _ _ => "a url here")
        (fun _ => [⟨"tool_use", "compile_resume", "", "toolu_1", ""⟩]) =
      (.ok "artifact-7", 10) := by
  have h := iteration_cap_returns_last_capture (fun _ => some "artifact-7")
    (fun _ _ => "a url here")
    (fun _ => [⟨"tool_use", "compile_resume", "", "toolu_1", ""⟩])
    (fun r h1 h2 =>
      ⟨by
        show toolCalls
            [⟨"tool_use", "compile_resume", "", "toolu_1", ""⟩] ≠ []
        decide,
       fun c hc hu => rfl⟩)
  exact h.trans (by rfl)

/-- C10. Artifact capture fires on the literal substring `"url"`: for any
tool-result text `tc` containing it on which the JSON-parse-and-lookup
fails (e.g. `tc` is not a valid JSON object with a `"url"` key),
`process_query` — the public interface — propagates the uncaught parse
exception (`.error`) instead of returning a result. -/
theorem url_substring_parse_error_reachable (jsonUrl : String → Option String)
    (tc : String) (hsub : strIn "url" tc = true) (hfail : jsonUrl tc = none) :
    process_query jsonUrl (fun _ _ => tc)
        (fun _ => [⟨"tool_use", "compile_resume", "", "toolu_1", ""⟩]) =
      (.error (), 1) := by
  unfold process_query
  show pqLoop jsonUrl (fun _ _ => tc)
      (fun _ => [⟨"tool_use", "compile_resume", "", "toolu_1", ""⟩])
      (9 + 1) 0 "" = (.error (), 1)
  apply pqLoop_error_round1
  · decide
  · show runCalls jsonUrl (fun _ _ => tc)
        [⟨"tool_use", "compile_resume", "", "toolu_1", ""⟩] "" = .error ()
    simp only [runCalls, captureStep, hsub, hfail, if_true]

/-- Witness for C10: the concrete tool-result text `"url: res.pdf"`
contains `"url"` but is not JSON, and `process_query` errors on it. -/
theorem url_substring_parse_error_reachable_witness :
    strIn "url" "url: res.pdf" = true ∧
    (fun _ => (none : Option String)) "url: res.pdf" = none ∧
    process_query (fun _ => none) (fun _ _ => "url: res.pdf")
        (fun _ => [⟨"tool_use", "compile_resume", "", "toolu_1", ""⟩]) =
      (.error (), 1) :=
  ⟨rfl, rfl,
    url_substring_parse_error_reachable (fun _ => none) "url: res.pdf" rfl rfl⟩

lemma check_rate_limit_admit {now : Int} {record : List Int}
    (hfresh : ∀ t ∈ record, now - t < 60) (hlen : record.length < 10) :
    check_rate_limit now record = (true, record ++ [now]) := by
  unfold check_rate_limit RATE_LIMIT_WINDOW RATE_LIMIT_MAX_REQUESTS
  rw [List.filter_eq_self.mpr (fun x hx => decide_eq_true (hfresh x hx))]
  rw [if_neg (by omega)]

lemma check_rate_limit_reject {now : Int} {record : List Int}
    (hfresh : ∀ t ∈ record, now - t < 60) (hlen : 10 ≤ record.length) :
    check_rate_limit now record = (false, record) := by
  unfold check_rate_limit RATE_LIMIT_WINDOW RATE_LIMIT_MAX_REQUESTS
  rw [List.filter_eq_self.mpr (fun x hx => decide_eq_true (hfresh x hx))]
  rw [if_pos (by omega)]

lemma admitSeq_cons (t : Int) (ts record : List Int) :
    admitSeq (t :: ts) record =
      ((check_rate_limit t record).1 ::
          (admitSeq ts (check_rate_limit t record).2).1,
        (admitSeq ts (check_rate_limit t record).2).2) := rfl

lemma admitSeq_spec :
    ∀ (ts record : List Int),
      (∀ x ∈ record, ∀ t ∈ ts, t - x < 60) →
      (∀ x ∈ ts, ∀ t ∈ ts, t - x < 60) →
      record.length ≤ 10 →
      (admitSeq ts record).1 =
          (List.range ts.length).map
            (fun i => decide (record.length + i < 10)) ∧
        (admitSeq ts record).2 = record ++ ts.take (10 - record.length) := by
  intro ts
  induction ts with
  | nil =>
      intro record h1 h2 hlen
      simp [admitSeq]
  | cons t ts ih =>
      intro record h1 h2 hlen
      have hfresh : ∀ x ∈ record, t - x < 60 :=
        fun x hx => h1 x hx t (List.mem_cons_self t ts)
      by_cases hcase : record.length < 10
      · have hstep : check_rate_limit t record = (true, record ++ [t]) :=
          check_rate_limit_admit hfresh hcase
        obtain ⟨ihb, ihs⟩ := ih (record ++ [t])
          (by
            intro x hx s hs
            rcases List.mem_append.mp hx with hx' | hx'
            · exact h1 x hx' s (List.mem_cons_of_mem _ hs)
            · simp only [List.mem_singleton] at hx'
              rw [hx']
              exact h2 t (List.mem_cons_self t ts) s (List.mem_cons_of_mem _ hs))
          (fun x hx s hs =>
            h2 x (List.mem_cons_of_mem _ hx) s (List.mem_cons_of_mem _ hs))
          (by simp; omega)
        rw [admitSeq_cons, hstep] at *
        constructor
        · show true :: (admitSeq ts (record ++ [t])).1 = _
          rw [ihb, List.length_cons, List.range_succ_eq_map, List.map_cons,
            List.map_map]
          congr 1
          · symm
            rw [decide_eq_true_eq]
            omega
          · apply List.map_congr_left
            intro i _
            simp only [Function.comp_apply, List.length_append,
              List.length_singleton]
            rw [decide_eq_decide]
            omega
        · show (admitSeq ts (record ++ [t])).2 = _
          rw [ihs]
          have hk : 10 - record.length = (10 - (record.length + 1)) + 1 := by
            omega
          rw [hk, List.take_succ_cons]
          simp [List.length_append, List.append_assoc]
      · have hlen10 : record.length = 10 := by omega
        have hstep : check_rate_limit t record = (false, record) :=
          check_rate_limit_reject hfresh (by omega)
        obtain ⟨ihb, ihs⟩ := ih record
          (fun x hx s hs => h1 x hx s (List.mem_cons_of_mem _ hs))
          (fun x hx s hs =>
            h2 x (List.mem_cons_of_mem _ hx) s (List.mem_cons_of_mem _ hs))
          hlen
        rw [admitSeq_cons, hstep] at *
        constructor
        · show false :: (admitSeq ts record).1 = _
          rw [ihb, List.length_cons, List.range_succ_eq_map, List.map_cons,
            List.map_map]
          congr 1
          · symm
            rw [decide_eq_false_iff_not]
            omega
          · apply List.map_congr_left
            intro i _
            simp only [Function.comp_apply]
            rw [decide_eq_decide]
            omega
        · show (admitSeq ts record).2 = _
          rw [ihs]
          simp [hlen10]

/-- C7. For each caller key, `check_rate_limit` first prunes that key's
timestamps older than the 60-second window and stores the pruned record,
then admits and appends the current timestamp iff the remaining count is
below the threshold of 10 (first conjunct).  Consequently, for calls all
lying within one rolling window and starting from an empty record, the
`i`-th call is admitted iff `i < 10` — exactly 10 admissions succeed per
rolling window per key and the 11th within the same window is rejected
(second conjunct) — and once the window has elapsed past all recorded
timestamps, admission resumes (third conjunct). -/
theorem rate_limit_sliding_window (ts : List Int)
    (hwin : ∀ x ∈ ts, ∀ t ∈ ts, t - x < RATE_LIMIT_WINDOW)
    (now : Int) (record : List Int)
    (hold : ∀ t ∈ record, RATE_LIMIT_WINDOW ≤ now - t) :
    (∀ (m : Int) (rec : List Int),
        check_rate_limit m rec =
          (decide ((rec.filter (fun u => m - u < RATE_LIMIT_WINDOW)).length <
              RATE_LIMIT_MAX_REQUESTS),
            if (rec.filter (fun u => m - u < RATE_LIMIT_WINDOW)).length <
                RATE_LIMIT_MAX_REQUESTS then
              rec.filter (fun u => m - u < RATE_LIMIT_WINDOW) ++ [m]
            else
              rec.filter (fun u => m - u < RATE_LIMIT_WINDOW))) ∧
    (admitSeq ts []).1 =
      (List.range ts.length).map
        (fun i => decide (i < RATE_LIMIT_MAX_REQUESTS)) ∧
    check_rate_limit now record = (true, [now]) := by
  refine ⟨?_, ?_, ?_⟩
  · intro m rec
    simp only [check_rate_limit]
    by_cases hc :
        (rec.filter (fun u => m - u < RATE_LIMIT_WINDOW)).length <
          RATE_LIMIT_MAX_REQUESTS
    · rw [if_neg (Nat.not_le.mpr hc), if_pos hc, decide_eq_true hc]
    · rw [if_pos (Nat.le_of_not_lt hc), if_neg hc, decide_eq_false hc]
  · have h := (admitSeq_spec ts [] (by simp)
      (fun x hx t ht => hwin x hx t ht) (by simp)).1
    rw [h]
    apply List.map_congr_left
    intro i _
    unfold RATE_LIMIT_MAX_REQUESTS
    simp only [List.length_nil]
    rw [decide_eq_decide]
    omega
  · have hfil : record.filter (fun t => now - t < RATE_LIMIT_WINDOW) = [] := by
      rw [List.filter_eq_nil_iff]
      intro a ha
      have h60 := hold a ha
      unfold RATE_LIMIT_WINDOW at h60 ⊢
      simp only [decide_eq_true_eq]
      omega
    simp only [check_rate_limit, hfil]
    rw [if_neg (by decide)]
    rfl

/-- Witness for C7: eleven requests at one instant from one key — the
first ten admitted, the eleventh rejected — and, for resumption, a request
at time 60 against a record whose lone entry (time 0) has just fallen out
of the window. -/
theorem rate_limit_sliding_window_witness :
    (admitSeq [0, 0, 0, 0, 0, 0, 0, 0, 0, 0, 0] []).1 =
      List.replicate 10 true ++ [false] ∧
    check_rate_limit 60 [0] = (true, [60]) := by
  have h := rate_limit_sliding_window [0, 0, 0, 0, 0, 0, 0, 0, 0, 0, 0]
    (by
      intro x hx t ht
      simp only [List.mem_cons, List.not_mem_nil, or_false] at hx ht
      rcases hx with rfl | rfl | rfl | rfl | rfl | rfl | rfl | rfl | rfl | rfl | rfl <;>
        rcases ht with rfl | rfl | rfl | rfl | rfl | rfl | rfl | rfl | rfl | rfl | rfl <;>
        decide)
    60 [0]
    (by
      intro t ht
      simp only [List.mem_cons, List.not_mem_nil, or_false] at ht
      subst ht
      decide)
  exact ⟨h.2.1.trans (by decide), h.2.2⟩

/-- C8 evidence.  A request whose caller key has 10 timestamps inside the
current window is rejected before the pool is touched — the pool state
comes back exactly as it went in, `get_client` is never reached — but the
rejection does NOT surface verbatim as a 429 rate-limit error: the
handler's blanket `except Exception` catches its own
`HTTPException(429, ...)` and re-raises it as status 500 (an
internal-error response whose detail merely embeds the stringified 429),
for every request body and every pool state. -/
theorem rate_limited_request_rejected_before_pool (now : Int)
    (resume_data job_description : String)
    (connected reconnectOk : Nat → Bool)
    (queryOutcome : Nat → Except String String) (st : PoolState) :
    tailor_resume now (List.replicate 10 now) resume_data job_description
        connected reconnectOk queryOutcome st =
      (.httpError 500 "429: Rate limit exceeded. Please try again later.",
        List.replicate 10 now, st) := by
  have hstep : check_rate_limit now (List.replicate 10 now) =
      (false, List.replicate 10 now) :=
    check_rate_limit_reject
      (fun t ht => by rw [List.eq_of_mem_replicate ht]; omega)
      (by simp)
  simp only [tailor_resume, hstep]
  rfl
